import Mathlib

/-!
Verification of the Sudoku engine of src/sudoku.py.

The engine is embedded shallowly:

* a grid is a total function Nat → Nat → Nat; only indices 0..8 are ever
  read or written by the engine (matching the 9×9 numpy array, where 0
  denotes an empty cell);
* in-place mutation of the numpy array becomes explicit state passing:
  each Python routine that mutates its grid becomes a Lean function
  returning the updated grid;
* random.shuffle is modelled by an oracle `Nat → List Nat` giving the
  result of the k-th shuffle performed so far (a counter is threaded
  through the recursion, exactly one shuffle per fill_grid call);
* random.randint(0, 8) pairs are modelled by an oracle
  `Nat → Fin 9 × Fin 9` indexed by the attempt number (the Fin 9 type
  records randint's 0..8 contract);
* Python's unbounded recursion becomes fuel-indexed recursion.  The
  recursion depth of solve_grid / fill_grid is bounded by the number of
  empty cells plus one, hence at most 82 on a 9×9 grid, so the wrappers
  pass fuel 82 and the fuel-exhaustion branch is unreachable in any run
  the Python code can perform.
-/

/-- A Sudoku grid: cell (r, c) for r, c < 9 holds a digit, 0 = empty. -/
abbrev Grid : Type := Nat → Nat → Nat

/-- `np.zeros((9, 9))`: the all-zero (all-empty) grid. -/
def zeroGrid : Grid := fun _ _ => 0

/-- `grid[r][c] = v`: functional update of one cell. -/
def setCell (g : Grid) (r c v : Nat) : Grid :=
  fun r' c' => if r' = r ∧ c' = c then v else g r' c'

/-- Scan cells k, k+1, ... (row i = k / 9, column j = k % 9, row-major)
for the first empty one; `fuel` counts the cells still to inspect.
Embeds the double loop of `find_empty_location` (src/sudoku.py:207-213),
whose visit order i*9+j is exactly this single-index order. -/
def findEmptyFrom (g : Grid) : Nat → Nat → Option (Nat × Nat)
  | _, 0 => none
  | k, fuel + 1 =>
    if g (k / 9) (k % 9) = 0 then some (k / 9, k % 9)
    else findEmptyFrom g (k + 1) fuel

/-- `find_empty_location` (src/sudoku.py:207-213): first cell equal to 0
in row-major order, if any. -/
def find_empty_location (g : Grid) : Option (Nat × Nat) :=
  findEmptyFrom g 0 81

/-- `is_safe` (src/sudoku.py:201-205): `number not in grid[row]`,
`number not in grid[:, col]`, and `number` not in the 3×3 slice
`grid[row - row%3 : row - row%3 + 3, col - col%3 : col - col%3 + 3]`.
Note the three membership tests run over the whole row, column and block,
including cell (row, col) itself. -/
def is_safe (g : Grid) (r c v : Nat) : Bool :=
  ((List.range 9).all fun j => g r j != v) &&
  ((List.range 9).all fun i => g i c != v) &&
  ((List.range 3).all fun i =>
    (List.range 3).all fun j => g (r - r % 3 + i) (c - c % 3 + j) != v)

/-- `list(range(1, 10))`: the candidate digits, in ascending order. -/
def oneToNine : List Nat := [1, 2, 3, 4, 5, 6, 7, 8, 9]

/-- One iteration of the `for number in range(1, 10)` loop of
`solve_grid` (src/sudoku.py:193-198), with `rec` the recursive call.
A `(true, _)` accumulator means an earlier candidate already succeeded
(Python returned from the loop); otherwise the grid holds the state
after the previous failed candidates (each one restored cell (r,c) to 0,
line 198). -/
def solveStep (rec : Grid → Bool × Grid) (r c : Nat)
    (acc : Bool × Grid) (v : Nat) : Bool × Grid :=
  match acc with
  | (true, g) => (true, g)
  | (false, g) =>
    if is_safe g r c v then
      match rec (setCell g r c v) with
      | (true, g2) => (true, g2)
      | (false, g2) => (false, setCell g2 r c 0)
    else (false, g)

/-- `solve_grid` (src/sudoku.py:187-199), fuel-indexed: no empty cell
means success; otherwise try 1..9 at the first empty cell. -/
def solveGo : Nat → Grid → Bool × Grid
  | 0, g => (false, g)
  | fuel + 1, g =>
    match find_empty_location g with
    | none => (true, g)
    | some (r, c) =>
      oneToNine.foldl (fun acc v => solveStep (fun h => solveGo fuel h) r c acc v)
        (false, g)

/-- `solve_grid` at fuel 82, enough for any 9×9 grid (the recursion
depth is bounded by the number of empty cells plus one ≤ 82). -/
def solve_grid (g : Grid) : Bool × Grid := solveGo 82 g

/-- One iteration of the `for number in numbers` loop of `fill_grid`
(src/sudoku.py:175-182), with `rec` the recursive call (taking the
shuffle counter and the grid).  After a failed recursive call the loop
simply continues with the grid the recursion left behind (the code has
no per-candidate reset here; the recursive call itself restores its own
cell, and cell (r,c) is overwritten by the next safe candidate). -/
def fillStep (rec : Nat → Grid → Bool × Grid × Nat) (r c : Nat)
    (acc : Bool × Grid × Nat) (v : Nat) : Bool × Grid × Nat :=
  match acc with
  | (true, g, n) => (true, g, n)
  | (false, g, n) =>
    if is_safe g r c v then
      let g2 := setCell g r c v
      match find_empty_location g2 with
      | none => (true, g2, n)
      | some _ => rec n g2
    else (false, g, n)

/-- `fill_grid` (src/sudoku.py:167-185), fuel-indexed, threading the
shuffle counter `n` (`oracle n` is what `random.shuffle(numbers)`
produced at the n-th shuffle).  The `for i in range(0, 81)` scan for the
first zero cell visits cells in the same row-major order as
`find_empty_location`.  If no cell is zero the loop ends with
row = col = 8 and the trailing `grid[row][col] = 0; return False`
(lines 184-185) zeroes cell (8,8); if a zero cell (r,c) was found and
every candidate failed, the same trailing code resets (r,c) to 0. -/
def fillGrid (oracle : Nat → List Nat) : Nat → Nat → Grid → Bool × Grid × Nat
  | 0, n, g => (false, g, n)
  | fuel + 1, n, g =>
    match find_empty_location g with
    | none => (false, setCell g 8 8 0, n)
    | some (r, c) =>
      match (oracle n).foldl
          (fun acc v => fillStep (fun m h => fillGrid oracle fuel m h) r c acc v)
          (false, g, n + 1) with
      | (true, g2, n2) => (true, g2, n2)
      | (false, g2, n2) => (false, setCell g2 r c 0, n2)

/-- The `while count > 0 and attempts < max_attempts` loop of
`remove_numbers` (src/sudoku.py:150-165); `fuel = max_attempts - attempts`
and `rand attempts` is the pair of `random.randint(0, 8)` draws of that
iteration.  A removal is kept only if `solve_grid` succeeds on a copy of
the zeroed grid; otherwise the backup value is restored (the grid is
left unchanged). -/
def removeGo (rand : Nat → Fin 9 × Fin 9) : Nat → Nat → Nat → Grid → Grid
  | 0, _, _, g => g
  | fuel + 1, attempts, count, g =>
    if count = 0 then g
    else
      let rc := rand attempts
      if g rc.1.val rc.2.val ≠ 0 then
        let g2 := setCell g rc.1.val rc.2.val 0
        if (solve_grid g2).1 then removeGo rand fuel (attempts + 1) (count - 1) g2
        else removeGo rand fuel (attempts + 1) count g
      else removeGo rand fuel (attempts + 1) count g

/-- `remove_numbers` (src/sudoku.py:150-165): `max_attempts = 81 * 10`. -/
def remove_numbers (rand : Nat → Fin 9 × Fin 9) (g : Grid) (count : Nat) : Grid :=
  removeGo rand (81 * 10) 0 count g

/-- `generate_sudoku` (src/sudoku.py:136-148): fill a fresh zero grid
(the returned Bool of `fill_grid` is ignored, as in the source), copy the
solution to the puzzle (value semantics: `remove_numbers` operates on its
own argument, so `solution` is untouched), map the difficulty to the
removal count (Easy 40, Medium 50, anything else 60), remove, and return
(puzzle, solution). -/
def generate_sudoku (oracle : Nat → List Nat) (rand : Nat → Fin 9 × Fin 9)
    (difficulty : String) : Grid × Grid :=
  let solution := (fillGrid oracle 82 0 zeroGrid).2.1
  let count := if difficulty = "Easy" then 40
    else if difficulty = "Medium" then 50 else 60
  let puzzle := remove_numbers rand solution count
  (puzzle, solution)

/-! ### Specification-level predicates -/

/-- Every cell of the 9×9 board is filled (nonzero). -/
def fullGrid (g : Grid) : Prop := ∀ r, r < 9 → ∀ c, c < 9 → g r c ≠ 0

/-- Every cell of the board is 0 or a digit 1..9. -/
def inRange (g : Grid) : Prop :=
  ∀ r, r < 9 → ∀ c, c < 9 → g r c = 0 ∨ (1 ≤ g r c ∧ g r c ≤ 9)

/-- Cells (r,c) and (r',c') share a row, a column, or a 3×3 block. -/
def sameUnit (r c r' c' : Nat) : Prop :=
  r = r' ∨ c = c' ∨ (r / 3 = r' / 3 ∧ c / 3 = c' / 3)

/-- No two distinct filled cells in the same row/column/block share a
value (the solved-grid invariant restricted to filled cells). -/
def validPartial (g : Grid) : Prop :=
  ∀ r c r' c', r < 9 → c < 9 → r' < 9 → c' < 9 → (r, c) ≠ (r', c') →
    sameUnit r c r' c' → g r c ≠ 0 → g r c ≠ g r' c'

/-- Row r of the grid, as a list. -/
def rowL (g : Grid) (r : Nat) : List Nat := (List.range 9).map fun c => g r c

/-- Column c of the grid, as a list. -/
def colL (g : Grid) (c : Nat) : List Nat := (List.range 9).map fun r => g r c

/-- Block b (b < 9; block row b / 3, block column b % 3), as a list. -/
def blockL (g : Grid) (b : Nat) : List Nat :=
  (List.range 9).map fun t => g (3 * (b / 3) + t / 3) (3 * (b % 3) + t % 3)

/-- The full solved-grid invariant: every cell holds a digit 1..9 and
every row, column and 3×3 block is a permutation of {1..9}. -/
def solvedInvariant (g : Grid) : Prop :=
  (∀ r, r < 9 → ∀ c, c < 9 → 1 ≤ g r c ∧ g r c ≤ 9) ∧
  (∀ r, r < 9 → (rowL g r).Perm oneToNine) ∧
  (∀ c, c < 9 → (colL g c).Perm oneToNine) ∧
  (∀ b, b < 9 → (blockL g b).Perm oneToNine)

/-- Modelled from the spec: `v` occurs elsewhere (in a cell other than
(r,c)) in row r, in column c, or in the 3×3 block with row bounds
r - r%3 .. r - r%3 + 3 and column bounds c - c%3 .. c - c%3 + 3.  This
is the condition the claim says is equivalent to `is_safe` returning
false; it differs from the source, which also counts an occurrence at
(r,c) itself. -/
def occursElsewhere (g : Grid) (r c v : Nat) : Prop :=
  (∃ j, j < 9 ∧ j ≠ c ∧ g r j = v) ∨
  (∃ i, i < 9 ∧ i ≠ r ∧ g i c = v) ∨
  (∃ i, i < r - r % 3 + 3 ∧ r - r % 3 ≤ i ∧
    ∃ j, j < c - c % 3 + 3 ∧ c - c % 3 ≤ j ∧ (i, j) ≠ (r, c) ∧ g i j = v)

/-- `v` occurs anywhere (possibly at (r,c) itself) in row r, column c,
or the 3×3 block containing (r,c): the condition `is_safe` actually
tests. -/
def occursInUnits (g : Grid) (r c v : Nat) : Prop :=
  (∃ j, j < 9 ∧ g r j = v) ∨
  (∃ i, i < 9 ∧ g i c = v) ∨
  (∃ i, i < 3 ∧ ∃ j, j < 3 ∧ g (r - r % 3 + i) (c - c % 3 + j) = v)

/-- g' is a completion of g: fully in range 1..9 (hence filled), valid,
and agreeing with g on every filled cell of g. -/
def isCompletion (g g' : Grid) : Prop :=
  (∀ r, r < 9 → ∀ c, c < 9 → 1 ≤ g' r c ∧ g' r c ≤ 9) ∧
  validPartial g' ∧
  (∀ r, r < 9 → ∀ c, c < 9 → g r c ≠ 0 → g' r c = g r c)

/-- g has at least one completion. -/
def hasCompletion (g : Grid) : Prop := ∃ g', isCompletion g g'

/-- Number of empty cells on the 9×9 board. -/
def countZeros (g : Grid) : Nat :=
  (((Finset.range 9) ×ˢ (Finset.range 9)).filter fun p => g p.1 p.2 = 0).card

/-! ### Decidability instances (so concrete grids can be checked by decide) -/

instance (r c r' c' : Nat) : Decidable (sameUnit r c r' c') := by
  unfold sameUnit; infer_instance

instance (g : Grid) : Decidable (fullGrid g) :=
  decidable_of_iff (∀ r ∈ List.range 9, ∀ c ∈ List.range 9, g r c ≠ 0)
    (by simp [fullGrid, List.mem_range])

instance (g : Grid) : Decidable (inRange g) :=
  decidable_of_iff
    (∀ r ∈ List.range 9, ∀ c ∈ List.range 9, g r c = 0 ∨ (1 ≤ g r c ∧ g r c ≤ 9))
    (by simp [inRange, List.mem_range])

instance (g : Grid) : Decidable (validPartial g) :=
  decidable_of_iff
    (∀ r ∈ List.range 9, ∀ c ∈ List.range 9, ∀ r' ∈ List.range 9, ∀ c' ∈ List.range 9,
      (r, c) ≠ (r', c') → sameUnit r c r' c' → g r c ≠ 0 → g r c ≠ g r' c')
    (by
      simp only [validPartial, List.mem_range]
      constructor
      · intro h r c r' c' hr hc hr' hc'
        exact h r hr c hc r' hr' c' hc'
      · intro h r hr c hc r' hr' c' hc'
        exact h r c r' c' hr hc hr' hc')

instance (l l' : List Nat) : Decidable (l.Perm l') :=
  decidable_of_iff (l.isPerm l' = true) List.isPerm_iff

instance (g : Grid) : Decidable (solvedInvariant g) :=
  decidable_of_iff
    ((∀ r ∈ List.range 9, ∀ c ∈ List.range 9, 1 ≤ g r c ∧ g r c ≤ 9) ∧
      (∀ r ∈ List.range 9, (rowL g r).Perm oneToNine) ∧
      (∀ c ∈ List.range 9, (colL g c).Perm oneToNine) ∧
      (∀ b ∈ List.range 9, (blockL g b).Perm oneToNine))
    (by simp [solvedInvariant, List.mem_range])


/-! ### Concrete grids and oracles used as witnesses/counterexamples -/

/-- A digit pattern forming a valid solved grid:
cell (r,c) holds ((3·(r%3) + r/3 + c) % 9) + 1. -/
def patternVal (r c : Nat) : Nat := (3 * (r % 3) + r / 3 + c) % 9 + 1

/-- The solved grid given by `patternVal`. -/
def patternGrid : Grid := fun r c => patternVal r c

/-- A shuffle oracle whose k-th output starts with exactly the digit
`patternGrid` wants at cell k, so `fillGrid` succeeds with no
backtracking. -/
def patternOracle : Nat → List Nat := fun k => [patternVal (k / 9) (k % 9)]

/-- The grid whose cells are all 1: fully filled but invalid. -/
def allOnes : Grid := fun _ _ => 1

/-- The all-zero grid with a single 5 at (0,0). -/
def g5 : Grid := setCell zeroGrid 0 0 5

/-- A valid partial grid with no completion: row 0 holds 1..8 and an
empty cell at (0,8), and cell (1,8) holds 9, so no digit can legally
fill (0,8). -/
def gBad : Grid := fun r c =>
  if r = 0 then (if c < 8 then c + 1 else 0)
  else if r = 1 ∧ c = 8 then 9 else 0

/-- A trivial randint oracle (always picks cell (0,0)). -/
def randZero : Nat → Fin 9 × Fin 9 := fun _ => (0, 0)

/-- A trivial shuffle oracle (always the empty list). -/
def emptyOracle : Nat → List Nat := fun _ => []

/-! ### Cell-update lemmas -/

theorem setCell_same (g : Grid) (r c v : Nat) : setCell g r c v r c = v := by
  simp [setCell]

theorem setCell_other (g : Grid) (r c v r' c' : Nat) (h : ¬(r' = r ∧ c' = c)) :
    setCell g r c v r' c' = g r' c' := by
  simp [setCell, h]

theorem setCell_setCell (g : Grid) (r c u v : Nat) :
    setCell (setCell g r c u) r c v = setCell g r c v := by
  funext r' c'
  by_cases h : r' = r ∧ c' = c <;> simp [setCell, h]

theorem setCell_id (g : Grid) (r c v : Nat) (h : g r c = v) : setCell g r c v = g := by
  funext r' c'
  by_cases h' : r' = r ∧ c' = c
  · obtain ⟨h1, h2⟩ := h'
    subst h1; subst h2
    simp [setCell, h]
  · simp [setCell, h']

/-! ### A generic invariant lemma for List.foldl -/

theorem foldl_inv {α β : Type} {P : β → Prop} {Q : α → Prop} (f : β → α → β)
    (hstep : ∀ acc v, Q v → P acc → P (f acc v)) :
    ∀ l : List α, ∀ acc, (∀ v ∈ l, Q v) → P acc → P (l.foldl f acc)
  | [], _, _, hacc => hacc
  | v :: vs, acc, hQ, hacc => by
    simp only [List.foldl_cons]
    exact foldl_inv f hstep vs (f acc v)
      (fun x hx => hQ x (List.mem_cons_of_mem _ hx))
      (hstep acc v (hQ v (List.mem_cons_self _ _)) hacc)

/-! ### Characterization of find_empty_location -/

theorem findEmptyFrom_none (g : Grid) :
    ∀ fuel k, findEmptyFrom g k fuel = none ↔
      ∀ i, k ≤ i → i < k + fuel → g (i / 9) (i % 9) ≠ 0
  | 0, k => by
    simp only [findEmptyFrom]
    constructor
    · intro _ i h1 h2; omega
    · intro _; trivial
  | fuel + 1, k => by
    simp only [findEmptyFrom]
    by_cases h : g (k / 9) (k % 9) = 0
    · simp only [h, if_true]
      constructor
      · intro hcontra; exact absurd hcontra (by simp)
      · intro hall; exact absurd h (hall k (Nat.le_refl k) (by omega))
    · simp only [h, if_false, findEmptyFrom_none g fuel (k + 1)]
      constructor
      · intro hall i h1 h2
        by_cases hik : i = k
        · subst hik; exact h
        · exact hall i (by omega) (by omega)
      · intro hall i h1 h2
        exact hall i (by omega) (by omega)

theorem findEmptyFrom_some (g : Grid) :
    ∀ fuel k r c, findEmptyFrom g k fuel = some (r, c) →
      ∃ i, k ≤ i ∧ i < k + fuel ∧ r = i / 9 ∧ c = i % 9 ∧ g r c = 0 ∧
        ∀ m, k ≤ m → m < i → g (m / 9) (m % 9) ≠ 0
  | 0, k, r, c => by simp [findEmptyFrom]
  | fuel + 1, k, r, c => by
    simp only [findEmptyFrom]
    by_cases h : g (k / 9) (k % 9) = 0
    · simp only [h, if_true, Option.some_inj]
      intro heq
      refine ⟨k, Nat.le_refl k, by omega, ?_, ?_, ?_, ?_⟩
      · exact (Prod.mk.injEq _ _ _ _ ▸ heq).1.symm
      · exact (Prod.mk.injEq _ _ _ _ ▸ heq).2.symm
      · have h1 : r = k / 9 := (Prod.mk.injEq _ _ _ _ ▸ heq).1.symm
        have h2 : c = k % 9 := (Prod.mk.injEq _ _ _ _ ▸ heq).2.symm
        rw [h1, h2]; exact h
      · intro m hm1 hm2; omega
    · simp only [h, if_false]
      intro hrec
      obtain ⟨i, h1, h2, h3, h4, h5, h6⟩ := findEmptyFrom_some g fuel (k + 1) r c hrec
      refine ⟨i, by omega, by omega, h3, h4, h5, ?_⟩
      intro m hm1 hm2
      by_cases hmk : m = k
      · subst hmk; exact h
      · exact h6 m (by omega) hm2

theorem find_none_iff (g : Grid) :
    find_empty_location g = none ↔ ∀ r, r < 9 → ∀ c, c < 9 → g r c ≠ 0 := by
  rw [find_empty_location, findEmptyFrom_none]
  constructor
  · intro h r hr c hc
    have hd : (9 * r + c) / 9 = r := by omega
    have hm : (9 * r + c) % 9 = c := by omega
    have := h (9 * r + c) (by omega) (by omega)
    rwa [hd, hm] at this
  · intro h i _ hi
    exact h (i / 9) (by omega) (i % 9) (by omega)

theorem find_some_spec (g : Grid) (r c : Nat) (h : find_empty_location g = some (r, c)) :
    r < 9 ∧ c < 9 ∧ g r c = 0 ∧
      ∀ r' c', r' < 9 → c' < 9 → (r' < r ∨ (r' = r ∧ c' < c)) → g r' c' ≠ 0 := by
  obtain ⟨i, h0, hi, hr, hc, hz, hprev⟩ := findEmptyFrom_some g 81 0 r c h
  subst hr; subst hc
  refine ⟨by omega, by omega, hz, ?_⟩
  intro r' c' hr' hc' hlt
  have hm : 9 * r' + c' < i := by omega
  have hd : (9 * r' + c') / 9 = r' := by omega
  have hmm : (9 * r' + c') % 9 = c' := by omega
  have := hprev (9 * r' + c') (by omega) hm
  rwa [hd, hmm] at this

theorem find_some_of_first (g : Grid) (r c : Nat) (hr : r < 9) (hc : c < 9)
    (hz : g r c = 0)
    (hfirst : ∀ r' c', r' < 9 → c' < 9 → (r' < r ∨ (r' = r ∧ c' < c)) → g r' c' ≠ 0) :
    find_empty_location g = some (r, c) := by
  cases hf : find_empty_location g with
  | none => exact absurd hz ((find_none_iff g).1 hf r hr c hc)
  | some rc =>
    obtain ⟨r0, c0⟩ := rc
    obtain ⟨hr0, hc0, hz0, hfirst0⟩ := find_some_spec g r0 c0 hf
    rcases Nat.lt_trichotomy (9 * r0 + c0) (9 * r + c) with hlt | heq | hgt
    · exact absurd hz0 (hfirst r0 c0 hr0 hc0 (by omega))
    · have heq2 : r0 = r ∧ c0 = c := by omega
      rw [heq2.1, heq2.2]
    · exact absurd hz (hfirst0 r c hr hc (by omega))

/-! ### is_safe and validity preservation -/

theorem is_safe_iff (g : Grid) (r c v : Nat) :
    is_safe g r c v = true ↔
      (∀ j, j < 9 → g r j ≠ v) ∧ (∀ i, i < 9 → g i c ≠ v) ∧
      (∀ i, i < 3 → ∀ j, j < 3 → g (r - r % 3 + i) (c - c % 3 + j) ≠ v) := by
  simp only [is_safe, Bool.and_eq_true, List.all_eq_true, List.mem_range, bne_iff_ne]
  tauto

theorem sameUnit_symm {r c r' c' : Nat} (h : sameUnit r c r' c') : sameUnit r' c' r c := by
  rcases h with h | h | ⟨h1, h2⟩
  · exact Or.inl h.symm
  · exact Or.inr (Or.inl h.symm)
  · exact Or.inr (Or.inr ⟨h1.symm, h2.symm⟩)

theorem safe_unit_ne (g : Grid) (r c v : Nat) (hsafe : is_safe g r c v = true)
    (a b : Nat) (ha : a < 9) (hb : b < 9) (hunit : sameUnit r c a b) : g a b ≠ v := by
  obtain ⟨hrow, hcol, hblock⟩ := (is_safe_iff g r c v).1 hsafe
  rcases hunit with h | h | ⟨h1, h2⟩
  · rw [← h]; exact hrow b hb
  · rw [← h]; exact hcol a ha
  · have e1 : r - r % 3 + a % 3 = a := by omega
    have e2 : c - c % 3 + b % 3 = b := by omega
    have := hblock (a % 3) (by omega) (b % 3) (by omega)
    rwa [e1, e2] at this

theorem validPartial_set (g : Grid) (r c v : Nat)
    (hval : validPartial g) (hsafe : is_safe g r c v = true) :
    validPartial (setCell g r c v) := by
  intro a b a' b' ha hb ha' hb' hne hunit hnz
  by_cases h1 : a = r ∧ b = c
  · obtain ⟨e1, e2⟩ := h1
    subst e1; subst e2
    have h2 : ¬(a' = a ∧ b' = b) := by
      intro ⟨e1, e2⟩; exact hne (by rw [e1, e2])
    rw [setCell_same] at hnz ⊢
    rw [setCell_other g a b v a' b' h2]
    exact fun heq => safe_unit_ne g a b v hsafe a' b' ha' hb' hunit heq.symm
  · rw [setCell_other g r c v a b h1] at hnz ⊢
    by_cases h2 : a' = r ∧ b' = c
    · obtain ⟨e1, e2⟩ := h2
      subst e1; subst e2
      rw [setCell_same]
      exact safe_unit_ne g a' b' v hsafe a b ha hb (sameUnit_symm hunit)
    · rw [setCell_other g r c v a' b' h2]
      exact hval a b a' b' ha hb ha' hb' hne hunit hnz

theorem validPartial_set0 (g : Grid) (r c : Nat) (hval : validPartial g) :
    validPartial (setCell g r c 0) := by
  intro a b a' b' ha hb ha' hb' hne hunit hnz
  by_cases h1 : a = r ∧ b = c
  · rw [h1.1, h1.2, setCell_same] at hnz
    exact absurd rfl hnz
  · rw [setCell_other g r c 0 a b h1] at hnz ⊢
    by_cases h2 : a' = r ∧ b' = c
    · rw [h2.1, h2.2, setCell_same]
      exact hnz
    · rw [setCell_other g r c 0 a' b' h2]
      exact hval a b a' b' ha hb ha' hb' hne hunit hnz

theorem inRange_set (g : Grid) (r c v : Nat) (hg : inRange g)
    (hv : v = 0 ∨ (1 ≤ v ∧ v ≤ 9)) : inRange (setCell g r c v) := by
  intro a ha b hb
  by_cases h : a = r ∧ b = c
  · rw [h.1, h.2, setCell_same]; exact hv
  · rw [setCell_other g r c v a b h]; exact hg a ha b hb

theorem validPartial_zero : validPartial zeroGrid := by
  intro a b a' b' _ _ _ _ _ _ hnz
  exact absurd rfl hnz

theorem inRange_zero : inRange zeroGrid := fun _ _ _ _ => Or.inl rfl


/-! ### solve_grid: reduction lemmas for one loop iteration -/

theorem solveStep_true (rec : Grid → Bool × Grid) (r c : Nat) (h : Grid) (v : Nat) :
    solveStep rec r c (true, h) v = (true, h) := rfl

theorem solveStep_not_safe (rec : Grid → Bool × Grid) (r c : Nat) (h : Grid) (v : Nat)
    (hs : is_safe h r c v = false) : solveStep rec r c (false, h) v = (false, h) := by
  simp [solveStep, hs]

theorem solveStep_rec_true (rec : Grid → Bool × Grid) (r c : Nat) (h g2 : Grid) (v : Nat)
    (hs : is_safe h r c v = true) (hrec : rec (setCell h r c v) = (true, g2)) :
    solveStep rec r c (false, h) v = (true, g2) := by
  simp [solveStep, hs, hrec]

theorem solveStep_rec_false (rec : Grid → Bool × Grid) (r c : Nat) (h g2 : Grid) (v : Nat)
    (hs : is_safe h r c v = true) (hrec : rec (setCell h r c v) = (false, g2)) :
    solveStep rec r c (false, h) v = (false, setCell g2 r c 0) := by
  simp [solveStep, hs, hrec]

/-! ### solve_grid: restoration on failure and soundness of success -/

theorem solveGo_false_eq : ∀ fuel g, (solveGo fuel g).1 = false → (solveGo fuel g).2 = g
  | 0, g => fun _ => rfl
  | fuel + 1, g => by
    simp only [solveGo]
    cases hf : find_empty_location g with
    | none => intro h; cases h
    | some rc =>
      obtain ⟨r, c⟩ := rc
      have hz : g r c = 0 := (find_some_spec g r c hf).2.2.1
      have key := foldl_inv (P := fun acc : Bool × Grid => acc.1 = false → acc.2 = g)
        (Q := fun _ : Nat => True)
        (solveStep (fun h => solveGo fuel h) r c)
        (by
          rintro ⟨b, h⟩ v _ hP
          cases b with
          | true => rw [solveStep_true]; exact hP
          | false =>
            have hhg : h = g := hP rfl
            subst hhg
            by_cases hs : is_safe h r c v
            · cases hrec : solveGo fuel (setCell h r c v) with
              | mk b2 g2 =>
                cases b2 with
                | true =>
                  rw [solveStep_rec_true (fun h => solveGo fuel h) r c h g2 v hs hrec]
                  intro hcontra; cases hcontra
                | false =>
                  rw [solveStep_rec_false (fun h => solveGo fuel h) r c h g2 v hs hrec]
                  intro _
                  have hres := solveGo_false_eq fuel (setCell h r c v)
                  rw [hrec] at hres
                  have hg2 : g2 = setCell h r c v := hres rfl
                  rw [hg2, setCell_setCell, setCell_id h r c 0 hz]
            · rw [solveStep_not_safe (fun h => solveGo fuel h) r c h v
                (Bool.not_eq_true _ ▸ hs)]
              exact hP)
        oneToNine (false, g) (fun _ _ => trivial) (fun _ => rfl)
      exact key

theorem solveGo_sound : ∀ fuel g, validPartial g → inRange g → (solveGo fuel g).1 = true →
    fullGrid (solveGo fuel g).2 ∧ validPartial (solveGo fuel g).2 ∧
      inRange (solveGo fuel g).2 ∧
      ∀ r' c', r' < 9 → c' < 9 → g r' c' ≠ 0 → (solveGo fuel g).2 r' c' = g r' c'
  | 0, g => fun _ _ h => by cases h
  | fuel + 1, g => by
    intro hval hrange
    simp only [solveGo]
    cases hf : find_empty_location g with
    | none =>
      intro _
      exact ⟨fun r hr c hc => (find_none_iff g).1 hf r hr c hc, hval, hrange,
        fun _ _ _ _ _ => rfl⟩
    | some rc =>
      obtain ⟨r, c⟩ := rc
      obtain ⟨hr, hc, hz, _⟩ := find_some_spec g r c hf
      have key := foldl_inv
        (P := fun acc : Bool × Grid =>
          (acc.1 = false → acc.2 = g) ∧
          (acc.1 = true → fullGrid acc.2 ∧ validPartial acc.2 ∧ inRange acc.2 ∧
            ∀ r' c', r' < 9 → c' < 9 → g r' c' ≠ 0 → acc.2 r' c' = g r' c'))
        (Q := fun v : Nat => 1 ≤ v ∧ v ≤ 9)
        (solveStep (fun h => solveGo fuel h) r c)
        (by
          rintro ⟨b, h⟩ v hQ hP
          cases b with
          | true => rw [solveStep_true]; exact hP
          | false =>
            have hhg : h = g := hP.1 rfl
            subst hhg
            by_cases hs : is_safe h r c v
            · have hval2 : validPartial (setCell h r c v) := validPartial_set h r c v hval hs
              have hrange2 : inRange (setCell h r c v) :=
                inRange_set h r c v hrange (Or.inr hQ)
              cases hrec : solveGo fuel (setCell h r c v) with
              | mk b2 g2 =>
                cases b2 with
                | true =>
                  rw [solveStep_rec_true (fun h => solveGo fuel h) r c h g2 v hs hrec]
                  refine ⟨fun hcontra => absurd hcontra (by simp), fun _ => ?_⟩
                  have hsound := solveGo_sound fuel (setCell h r c v) hval2 hrange2
                  rw [hrec] at hsound
                  obtain ⟨hfull2, hval3, hrange3, hext2⟩ := hsound rfl
                  refine ⟨hfull2, hval3, hrange3, ?_⟩
                  intro r' c' hr' hc' hnz
                  have hne : ¬(r' = r ∧ c' = c) := by
                    intro ⟨e1, e2⟩; subst e1; subst e2; exact hnz hz
                  have h1 : setCell h r c v r' c' = h r' c' := setCell_other h r c v r' c' hne
                  rw [hext2 r' c' hr' hc' (by rw [h1]; exact hnz), h1]
                | false =>
                  rw [solveStep_rec_false (fun h => solveGo fuel h) r c h g2 v hs hrec]
                  refine ⟨fun _ => ?_, fun hcontra => absurd hcontra (by simp)⟩
                  have hres := solveGo_false_eq fuel (setCell h r c v)
                  rw [hrec] at hres
                  have hg2 : g2 = setCell h r c v := hres rfl
                  show setCell g2 r c 0 = h
                  rw [hg2, setCell_setCell, setCell_id h r c 0 hz]
            · rw [solveStep_not_safe (fun h => solveGo fuel h) r c h v
                (Bool.not_eq_true _ ▸ hs)]
              exact hP)
        oneToNine (false, g) (by intro v hv; simp [oneToNine] at hv; omega)
        ⟨fun _ => rfl, fun hcontra => by cases hcontra⟩
      exact key.2

/-! ### fill_grid: reduction lemmas for one loop iteration -/

theorem fillStep_true (rec : Nat → Grid → Bool × Grid × Nat) (r c : Nat)
    (h : Grid) (n v : Nat) : fillStep rec r c (true, h, n) v = (true, h, n) := rfl

theorem fillStep_not_safe (rec : Nat → Grid → Bool × Grid × Nat) (r c : Nat)
    (h : Grid) (n v : Nat) (hs : is_safe h r c v = false) :
    fillStep rec r c (false, h, n) v = (false, h, n) := by
  simp [fillStep, hs]

theorem fillStep_safe_full (rec : Nat → Grid → Bool × Grid × Nat) (r c : Nat)
    (h : Grid) (n v : Nat) (hs : is_safe h r c v = true)
    (hfind : find_empty_location (setCell h r c v) = none) :
    fillStep rec r c (false, h, n) v = (true, setCell h r c v, n) := by
  simp [fillStep, hs, hfind]

theorem fillStep_safe_rec (rec : Nat → Grid → Bool × Grid × Nat) (r c : Nat)
    (h : Grid) (n v : Nat) (p : Nat × Nat) (hs : is_safe h r c v = true)
    (hfind : find_empty_location (setCell h r c v) = some p) :
    fillStep rec r c (false, h, n) v = rec n (setCell h r c v) := by
  simp [fillStep, hs, hfind]

/-! ### fill_grid: the success grid is full; validity is preserved -/

theorem fillGrid_full (oracle : Nat → List Nat) :
    ∀ fuel n g, (fillGrid oracle fuel n g).1 = true →
      fullGrid (fillGrid oracle fuel n g).2.1
  | 0, n, g => fun h => Bool.noConfusion (show false = true from h)
  | fuel + 1, n, g => by
    simp only [fillGrid]
    cases hf : find_empty_location g with
    | none => exact fun h => Bool.noConfusion (show false = true from h)
    | some rc =>
      obtain ⟨r, c⟩ := rc
      have key := foldl_inv
        (P := fun acc : Bool × Grid × Nat => acc.1 = true → fullGrid acc.2.1)
        (Q := fun _ : Nat => True)
        (fillStep (fun m h => fillGrid oracle fuel m h) r c)
        (by
          rintro ⟨b, h, m⟩ v _ hP
          cases b with
          | true => rw [fillStep_true]; exact hP
          | false =>
            by_cases hs : is_safe h r c v
            · cases hfind : find_empty_location (setCell h r c v) with
              | none =>
                rw [fillStep_safe_full _ r c h m v hs hfind]
                exact fun _ => fun a ha b2 hb2 => (find_none_iff _).1 hfind a ha b2 hb2
              | some p =>
                rw [fillStep_safe_rec _ r c h m v p hs hfind]
                exact fillGrid_full oracle fuel m (setCell h r c v)
            · rw [fillStep_not_safe _ r c h m v (Bool.not_eq_true _ ▸ hs)]
              exact hP)
        (oracle n) (false, g, n + 1) (fun _ _ => trivial)
        (fun h => Bool.noConfusion (show false = true from h))
      have final : ∀ x : Bool × Grid × Nat, (x.1 = true → fullGrid x.2.1) →
          ((match x with
            | (true, g2, n2) => (true, g2, n2)
            | (false, g2, n2) => (false, setCell g2 r c 0, n2) : Bool × Grid × Nat).1 = true →
           fullGrid (match x with
            | (true, g2, n2) => (true, g2, n2)
            | (false, g2, n2) => (false, setCell g2 r c 0, n2) : Bool × Grid × Nat).2.1) := by
        rintro ⟨b, g2, n2⟩ hx
        cases b with
        | true => exact fun _ => hx rfl
        | false => exact fun h => Bool.noConfusion (show false = true from h)
      exact final _ key

theorem fillGrid_sound (oracle : Nat → List Nat)
    (horacle : ∀ k v, v ∈ oracle k → 1 ≤ v ∧ v ≤ 9) :
    ∀ fuel n g, validPartial g → inRange g →
      validPartial (fillGrid oracle fuel n g).2.1 ∧ inRange (fillGrid oracle fuel n g).2.1
  | 0, _, g => fun hval hrange => ⟨hval, hrange⟩
  | fuel + 1, n, g => by
    intro hval hrange
    simp only [fillGrid]
    cases hf : find_empty_location g with
    | none =>
      exact ⟨validPartial_set0 g 8 8 hval, inRange_set g 8 8 0 hrange (Or.inl rfl)⟩
    | some rc =>
      obtain ⟨r, c⟩ := rc
      have key := foldl_inv
        (P := fun acc : Bool × Grid × Nat => validPartial acc.2.1 ∧ inRange acc.2.1)
        (Q := fun v : Nat => 1 ≤ v ∧ v ≤ 9)
        (fillStep (fun m h => fillGrid oracle fuel m h) r c)
        (by
          rintro ⟨b, h, m⟩ v hQ hP
          cases b with
          | true => rw [fillStep_true]; exact hP
          | false =>
            obtain ⟨hv, hr2⟩ := hP
            by_cases hs : is_safe h r c v
            · have hval2 := validPartial_set h r c v hv hs
              have hrange2 := inRange_set h r c v hr2 (Or.inr hQ)
              cases hfind : find_empty_location (setCell h r c v) with
              | none =>
                rw [fillStep_safe_full _ r c h m v hs hfind]
                exact ⟨hval2, hrange2⟩
              | some p =>
                rw [fillStep_safe_rec _ r c h m v p hs hfind]
                exact fillGrid_sound oracle horacle fuel m (setCell h r c v) hval2 hrange2
            · rw [fillStep_not_safe _ r c h m v (Bool.not_eq_true _ ▸ hs)]
              exact ⟨hv, hr2⟩)
        (oracle n) (false, g, n + 1) (fun v hv => horacle n v hv) ⟨hval, hrange⟩
      have final : ∀ x : Bool × Grid × Nat, validPartial x.2.1 ∧ inRange x.2.1 →
          validPartial (match x with
            | (true, g2, n2) => (true, g2, n2)
            | (false, g2, n2) => (false, setCell g2 r c 0, n2) : Bool × Grid × Nat).2.1 ∧
          inRange (match x with
            | (true, g2, n2) => (true, g2, n2)
            | (false, g2, n2) => (false, setCell g2 r c 0, n2) : Bool × Grid × Nat).2.1 := by
        rintro ⟨b, g2, n2⟩ hx
        cases b with
        | true => exact hx
        | false =>
          exact ⟨validPartial_set0 g2 r c hx.1, inRange_set g2 r c 0 hx.2 (Or.inl rfl)⟩
      exact final _ key

/-! ### From full + valid + in-range to the solved-grid invariant -/

theorem perm_oneToNine (l : List Nat) (hlen : l.length = 9) (hnd : l.Nodup)
    (hmem : ∀ x ∈ l, 1 ≤ x ∧ x ≤ 9) : l.Perm oneToNine := by
  have hsub : l ⊆ oneToNine := by
    intro x hx
    have hr := hmem x hx
    simp only [oneToNine, List.mem_cons, List.not_mem_nil, or_false]
    omega
  exact (List.subperm_of_subset hnd hsub).perm_of_length_le (by simp [oneToNine, hlen])

theorem solvedInvariant_of (g : Grid) (hfull : fullGrid g) (hval : validPartial g)
    (hrange : inRange g) : solvedInvariant g := by
  have hcell : ∀ r, r < 9 → ∀ c, c < 9 → 1 ≤ g r c ∧ g r c ≤ 9 := by
    intro r hr c hc
    rcases hrange r hr c hc with h0 | h1
    · exact absurd h0 (hfull r hr c hc)
    · exact h1
  refine ⟨hcell, ?_, ?_, ?_⟩
  · intro r hr
    apply perm_oneToNine
    · simp [rowL]
    · apply List.Nodup.map_on _ (List.nodup_range 9)
      intro c1 h1 c2 h2 heq
      by_contra hne
      have hm1 : c1 < 9 := List.mem_range.1 h1
      have hm2 : c2 < 9 := List.mem_range.1 h2
      exact hval r c1 r c2 hr hm1 hr hm2
        (by simp [Prod.ext_iff]; exact hne) (Or.inl rfl) (hfull r hr c1 hm1) heq
    · intro x hx
      simp only [rowL, List.mem_map, List.mem_range] at hx
      obtain ⟨c, hc, hcx⟩ := hx
      rw [← hcx]; exact hcell r hr c hc
  · intro c hc
    apply perm_oneToNine
    · simp [colL]
    · apply List.Nodup.map_on _ (List.nodup_range 9)
      intro r1 h1 r2 h2 heq
      by_contra hne
      have hm1 : r1 < 9 := List.mem_range.1 h1
      have hm2 : r2 < 9 := List.mem_range.1 h2
      exact hval r1 c r2 c hm1 hc hm2 hc
        (by simp [Prod.ext_iff]; exact hne) (Or.inr (Or.inl rfl)) (hfull r1 hm1 c hc) heq
    · intro x hx
      simp only [colL, List.mem_map, List.mem_range] at hx
      obtain ⟨r, hr, hrx⟩ := hx
      rw [← hrx]; exact hcell r hr c hc
  · intro b hb
    apply perm_oneToNine
    · simp [blockL]
    · apply List.Nodup.map_on _ (List.nodup_range 9)
      intro t1 h1 t2 h2 heq
      by_contra hne
      have hm1 : t1 < 9 := List.mem_range.1 h1
      have hm2 : t2 < 9 := List.mem_range.1 h2
      have hr1 : 3 * (b / 3) + t1 / 3 < 9 := by omega
      have hc1 : 3 * (b % 3) + t1 % 3 < 9 := by omega
      have hr2 : 3 * (b / 3) + t2 / 3 < 9 := by omega
      have hc2 : 3 * (b % 3) + t2 % 3 < 9 := by omega
      apply hval (3 * (b / 3) + t1 / 3) (3 * (b % 3) + t1 % 3)
        (3 * (b / 3) + t2 / 3) (3 * (b % 3) + t2 % 3) hr1 hc1 hr2 hc2
        (by simp [Prod.ext_iff]; omega)
        (Or.inr (Or.inr (by constructor <;> omega)))
        (hfull _ hr1 _ hc1) heq
    · intro x hx
      simp only [blockL, List.mem_map, List.mem_range] at hx
      obtain ⟨t, ht, htx⟩ := hx
      rw [← htx]
      exact hcell _ (by omega) _ (by omega)

/-! ### solve_grid on a full grid -/

theorem solve_grid_of_full (g : Grid) (hfull : fullGrid g) : solve_grid g = (true, g) := by
  have hf : find_empty_location g = none := (find_none_iff g).2 hfull
  show solveGo (81 + 1) g = (true, g)
  simp only [solveGo, hf]

/-! ### remove_numbers: invariants of the removal loop -/

theorem removeGo_solve (rand : Nat → Fin 9 × Fin 9) :
    ∀ fuel attempts count g, (solve_grid g).1 = true →
      (solve_grid (removeGo rand fuel attempts count g)).1 = true
  | 0, _, _, _ => fun h => h
  | fuel + 1, attempts, count, g => by
    intro hsolve
    simp only [removeGo]
    by_cases hcount : count = 0
    · simp only [hcount, if_pos]
      exact hsolve
    · simp only [hcount, if_false]
      by_cases hnz : g (rand attempts).1.val (rand attempts).2.val ≠ 0
      · simp only [if_pos hnz]
        by_cases hs :
            (solve_grid (setCell g (rand attempts).1.val (rand attempts).2.val 0)).1 = true
        · simp only [hs, if_true]
          exact removeGo_solve rand fuel (attempts + 1) (count - 1) _ hs
        · simp only [if_neg hs]
          exact removeGo_solve rand fuel (attempts + 1) count g hsolve
      · simp only [if_neg hnz]
        exact removeGo_solve rand fuel (attempts + 1) count g hsolve

theorem removeGo_cells (rand : Nat → Fin 9 × Fin 9) :
    ∀ fuel attempts count g r c,
      removeGo rand fuel attempts count g r c = 0 ∨
      removeGo rand fuel attempts count g r c = g r c
  | 0, _, _, _, _, _ => Or.inr rfl
  | fuel + 1, attempts, count, g, r, c => by
    simp only [removeGo]
    by_cases hcount : count = 0
    · simp only [hcount, if_pos]
      exact Or.inr trivial
    · simp only [hcount, if_false]
      by_cases hnz : g (rand attempts).1.val (rand attempts).2.val ≠ 0
      · simp only [if_pos hnz]
        by_cases hs :
            (solve_grid (setCell g (rand attempts).1.val (rand attempts).2.val 0)).1 = true
        · simp only [hs, if_true]
          rcases removeGo_cells rand fuel (attempts + 1) (count - 1)
              (setCell g (rand attempts).1.val (rand attempts).2.val 0) r c with h | h
          · exact Or.inl h
          · by_cases hrc : r = (rand attempts).1.val ∧ c = (rand attempts).2.val
            · rw [h, hrc.1, hrc.2, setCell_same]
              exact Or.inl rfl
            · rw [h, setCell_other g _ _ 0 r c hrc]
              exact Or.inr rfl
        · simp only [if_neg hs]
          exact removeGo_cells rand fuel (attempts + 1) count g r c
      · simp only [if_neg hnz]
        exact removeGo_cells rand fuel (attempts + 1) count g r c

theorem countZeros_set0 (g : Grid) (r c : Nat) (hr : r < 9) (hc : c < 9)
    (hnz : g r c ≠ 0) : countZeros (setCell g r c 0) = countZeros g + 1 := by
  unfold countZeros
  have hins : ((Finset.range 9) ×ˢ (Finset.range 9)).filter
        (fun p => setCell g r c 0 p.1 p.2 = 0)
      = insert (r, c)
        (((Finset.range 9) ×ˢ (Finset.range 9)).filter (fun p => g p.1 p.2 = 0)) := by
    ext ⟨a, b⟩
    simp only [Finset.mem_filter, Finset.mem_insert, Finset.mem_product, Finset.mem_range,
      Prod.mk.injEq]
    constructor
    · rintro ⟨⟨ha, hb⟩, hz⟩
      by_cases hab : a = r ∧ b = c
      · exact Or.inl hab
      · right
        exact ⟨⟨ha, hb⟩, by rwa [setCell_other g r c 0 a b hab] at hz⟩
    · rintro (⟨e1, e2⟩ | ⟨⟨ha, hb⟩, hz⟩)
      · subst e1; subst e2
        exact ⟨⟨hr, hc⟩, by rw [setCell_same]⟩
      · refine ⟨⟨ha, hb⟩, ?_⟩
        by_cases hab : a = r ∧ b = c
        · obtain ⟨e1, e2⟩ := hab
          subst e1; subst e2
          rw [setCell_same]
        · rwa [setCell_other g r c 0 a b hab]
  rw [hins, Finset.card_insert_of_not_mem (by
    simp only [Finset.mem_filter, Finset.mem_product, Finset.mem_range]
    rintro ⟨_, hz⟩
    exact hnz hz)]

theorem countZeros_of_full (g : Grid) (hfull : fullGrid g) : countZeros g = 0 := by
  unfold countZeros
  rw [Finset.card_eq_zero]
  ext p
  obtain ⟨a, b⟩ := p
  simp only [Finset.mem_filter, Finset.mem_product, Finset.mem_range,
    Finset.not_mem_empty, iff_false, not_and]
  rintro ⟨ha, hb⟩
  exact hfull a ha b hb

theorem removeGo_zeros (rand : Nat → Fin 9 × Fin 9) :
    ∀ fuel attempts count g,
      countZeros (removeGo rand fuel attempts count g) ≤ count + countZeros g
  | 0, _, count, g => Nat.le_add_left _ _
  | fuel + 1, attempts, count, g => by
    simp only [removeGo]
    by_cases hcount : count = 0
    · simp only [hcount, if_pos]
      exact Nat.le_add_left _ _
    · simp only [hcount, if_false]
      by_cases hnz : g (rand attempts).1.val (rand attempts).2.val ≠ 0
      · simp only [if_pos hnz]
        by_cases hs :
            (solve_grid (setCell g (rand attempts).1.val (rand attempts).2.val 0)).1 = true
        · simp only [hs, if_true]
          have hcz : countZeros (setCell g (rand attempts).1.val (rand attempts).2.val 0)
              = countZeros g + 1 :=
            countZeros_set0 g _ _ (rand attempts).1.isLt (rand attempts).2.isLt hnz
          have hrec := removeGo_zeros rand fuel (attempts + 1) (count - 1)
            (setCell g (rand attempts).1.val (rand attempts).2.val 0)
          rw [hcz] at hrec
          omega
        · simp only [if_neg hs]
          exact removeGo_zeros rand fuel (attempts + 1) count g
      · simp only [if_neg hnz]
        exact removeGo_zeros rand fuel (attempts + 1) count g

theorem removeGo_congr (rand rand' : Nat → Fin 9 × Fin 9)
    (hag : ∀ i, i < 81 * 10 → rand i = rand' i) :
    ∀ fuel attempts count g, attempts + fuel ≤ 81 * 10 →
      removeGo rand fuel attempts count g = removeGo rand' fuel attempts count g
  | 0, _, _, _ => fun _ => rfl
  | fuel + 1, attempts, count, g => by
    intro hle
    have heq : rand attempts = rand' attempts := hag attempts (by omega)
    simp only [removeGo, ← heq]
    by_cases hcount : count = 0
    · simp only [hcount, if_pos]
    · simp only [hcount, if_false]
      by_cases hnz : g (rand attempts).1.val (rand attempts).2.val ≠ 0
      · simp only [if_pos hnz]
        by_cases hs :
            (solve_grid (setCell g (rand attempts).1.val (rand attempts).2.val 0)).1 = true
        · simp only [hs, if_true]
          exact removeGo_congr rand rand' hag fuel (attempts + 1) (count - 1) _ (by omega)
        · simp only [if_neg hs]
          exact removeGo_congr rand rand' hag fuel (attempts + 1) count g (by omega)
      · simp only [if_neg hnz]
        exact removeGo_congr rand rand' hag fuel (attempts + 1) count g (by omega)

/-! ### Claim theorems -/

/-- C8: find_empty_location returns the first cell equal to 0 in
row-major scan order (smallest row, then smallest column within it),
returns none exactly when no cell is 0, and — being a pure function of
the grid — is deterministic. -/
theorem c8_find_empty_first_rowmajor (g : Grid) :
    (find_empty_location g = none ↔ ∀ r, r < 9 → ∀ c, c < 9 → g r c ≠ 0) ∧
    (∀ r c, find_empty_location g = some (r, c) ↔
      (r < 9 ∧ c < 9 ∧ g r c = 0 ∧
        ∀ r' c', r' < 9 → c' < 9 → (r' < r ∨ (r' = r ∧ c' < c)) → g r' c' ≠ 0)) := by
  refine ⟨find_none_iff g, ?_⟩
  intro r c
  constructor
  · exact find_some_spec g r c
  · rintro ⟨hr, hc, hz, hfirst⟩
    exact find_some_of_first g r c hr hc hz hfirst

/-- C3 counterexample: on the grid with a single 5 at (0,0), testing
value 5 at (0,0) itself, is_safe returns false although 5 occurs nowhere
other than at (0,0): the claimed iff (false ↔ occurs elsewhere) fails. -/
theorem c3_counterexample :
    is_safe g5 0 0 5 = false ∧ ¬ occursElsewhere g5 0 0 5 := by
  constructor
  · decide
  · rintro (⟨j, hj, hjne, hjv⟩ | ⟨i, hi, hine, hiv⟩ |
      ⟨i, hi1, hi2, j, hj1, hj2, hne, hv⟩)
    · simp [g5, setCell, zeroGrid, hjne] at hjv
    · simp [g5, setCell, zeroGrid, hine] at hiv
    · have hne2 : ¬(i = 0 ∧ j = 0) := by
        intro ⟨e1, e2⟩
        exact hne (by rw [e1, e2])
      simp [g5, setCell, zeroGrid, hne2] at hv

/-- C3 (amended): for every 9×9 grid, row r, column c and value v in
1..9, is_safe(grid, r, c, v) returns false iff v occurs anywhere in row
r, in column c, or in the 3×3 block with bounds r - r%3 .. r - r%3 + 3
and c - c%3 .. c - c%3 + 3 — including, possibly, at cell (r,c) itself —
and returns true otherwise. -/
theorem c3_is_safe_iff_occurs (g : Grid) (r c v : Nat) (_hr : r < 9) (_hc : c < 9)
    (_hv1 : 1 ≤ v) (_hv9 : v ≤ 9) :
    is_safe g r c v = false ↔ occursInUnits g r c v := by
  have h1 : is_safe g r c v = false ↔ ¬ (is_safe g r c v = true) := by
    cases hb : is_safe g r c v <;> simp
  rw [h1, is_safe_iff]
  unfold occursInUnits
  constructor
  · intro hn
    by_cases hA : ∀ j, j < 9 → g r j ≠ v
    · by_cases hB : ∀ i, i < 9 → g i c ≠ v
      · have hC : ¬ ∀ i, i < 3 → ∀ j, j < 3 → g (r - r % 3 + i) (c - c % 3 + j) ≠ v := by
          intro hC
          exact hn ⟨hA, hB, hC⟩
        push_neg at hC
        obtain ⟨i, hi, j, hj, hij⟩ := hC
        exact Or.inr (Or.inr ⟨i, hi, j, hj, hij⟩)
      · push_neg at hB
        obtain ⟨i, hi, hiv⟩ := hB
        exact Or.inr (Or.inl ⟨i, hi, hiv⟩)
    · push_neg at hA
      obtain ⟨j, hj, hjv⟩ := hA
      exact Or.inl ⟨j, hj, hjv⟩
  · rintro (⟨j, hj, hjv⟩ | ⟨i, hi, hiv⟩ | ⟨i, hi, j, hj, hij⟩) ⟨hA, hB, hC⟩
    · exact hA j hj hjv
    · exact hB i hi hiv
    · exact hC i hi j hj hij

/-- C3 witness: the amended characterization applied to the concrete
grid g5 at row 0, column 1, value 5 (5 sits in the same row and block). -/
theorem c3_witness :
    is_safe g5 0 1 5 = false ↔ occursInUnits g5 0 1 5 :=
  c3_is_safe_iff_occurs g5 0 1 5 (by decide) (by decide) (by decide) (by decide)

/-- C7: on a completely filled grid satisfying the solved-grid
invariant, solve returns true and leaves every cell unchanged. -/
theorem c7_solve_idempotent (g : Grid) (hsolved : solvedInvariant g) :
    (solve_grid g).1 = true ∧ ∀ r c, (solve_grid g).2 r c = g r c := by
  have hfull : fullGrid g := by
    intro r hr c hc
    have := hsolved.1 r hr c hc
    omega
  refine ⟨?_, ?_⟩
  · rw [solve_grid_of_full g hfull]
  · intro r c
    rw [solve_grid_of_full g hfull]

/-- C7 witness: the pattern grid is a solved grid; solve leaves it
unchanged and succeeds. -/
theorem c7_witness :
    (solve_grid patternGrid).1 = true ∧
      ∀ r c, (solve_grid patternGrid).2 r c = patternGrid r c :=
  c7_solve_idempotent patternGrid (by decide)

/-- C10: calling fill_grid on a grid with no empty cell makes the
row-major scan complete without placing anything; the trailing reset
then runs with the loop's final indices, so the call returns false and
zeroes cell (8,8), leaving every other cell unchanged. -/
theorem c10_fill_full_input (oracle : Nat → List Nat) (fuel n : Nat) (g : Grid)
    (hfull : fullGrid g) :
    (fillGrid oracle (fuel + 1) n g).1 = false ∧
    (fillGrid oracle (fuel + 1) n g).2.1 8 8 = 0 ∧
    ∀ r c, ¬(r = 8 ∧ c = 8) → (fillGrid oracle (fuel + 1) n g).2.1 r c = g r c := by
  have hf : find_empty_location g = none := (find_none_iff g).2 hfull
  simp only [fillGrid, hf]
  exact ⟨trivial, setCell_same g 8 8 0, fun r c h => setCell_other g 8 8 0 r c h⟩

/-- C10 witness: fill_grid on the full pattern grid returns false and
resets exactly cell (8,8). -/
theorem c10_witness :
    (fillGrid emptyOracle 1 0 patternGrid).1 = false ∧
    (fillGrid emptyOracle 1 0 patternGrid).2.1 8 8 = 0 ∧
    ∀ r c, ¬(r = 8 ∧ c = 8) →
      (fillGrid emptyOracle 1 0 patternGrid).2.1 r c = patternGrid r c :=
  c10_fill_full_input emptyOracle 0 0 patternGrid (by decide)

/-- C4 (amended): solve is a total function of the grid (it never
raises); whenever it returns false the grid is restored exactly to its
pre-call contents; and on every valid, in-range grid with no completion
it returns false.  (On an invalid full grid the original claim fails:
see the counterexample.) -/
theorem c4_solve_error_free (g : Grid) :
    ((solve_grid g).1 = false → ∀ r c, (solve_grid g).2 r c = g r c) ∧
    (validPartial g → inRange g → ¬ hasCompletion g → (solve_grid g).1 = false) := by
  constructor
  · intro hfalse r c
    have hres : (solve_grid g).2 = g := solveGo_false_eq 82 g hfalse
    rw [hres]
  · intro hval hrange hnc
    by_contra htrue
    rw [Bool.not_eq_false] at htrue
    obtain ⟨hfull, hval2, hrange2, hext⟩ := solveGo_sound 82 g hval hrange htrue
    apply hnc
    refine ⟨(solve_grid g).2, ?_, hval2, fun r hr c hc => hext r c hr hc⟩
    intro r hr c hc
    rcases hrange2 r hr c hc with h0 | h1
    · exact absurd h0 (hfull r hr c hc)
    · exact h1

/-- C4 counterexample: the all-ones grid is fully filled but invalid,
so it has no completion; yet solve returns true on it (no empty cell is
found, so the search reports success immediately, never checking the
constraints of the already-filled cells). -/
theorem c4_counterexample :
    (solve_grid allOnes).1 = true ∧ ¬ hasCompletion allOnes := by
  constructor
  · decide
  · rintro ⟨g', hrange, hval, hext⟩
    have h1 : g' 0 0 = 1 := hext 0 (by omega) 0 (by omega) (by simp [allOnes])
    have h2 : g' 0 1 = 1 := hext 0 (by omega) 1 (by omega) (by simp [allOnes])
    have hne : ((0 : Nat), (0 : Nat)) ≠ ((0 : Nat), (1 : Nat)) := by decide
    have hcon := hval 0 0 0 1 (by omega) (by omega) (by omega) (by omega) hne
      (Or.inl rfl) (by rw [h1]; omega)
    rw [h1, h2] at hcon
    exact hcon rfl

/-- gBad has no completion: a completion must put a digit distinct from
1..8 (its row) at (0,8), hence 9, but (1,8) already holds 9 in the same
column (and block). -/
theorem gBad_noCompletion : ¬ hasCompletion gBad := by
  rintro ⟨g', hrange, hval, hext⟩
  have hrow : ∀ j, j < 8 → g' 0 j = j + 1 := by
    intro j hj
    have hne : gBad 0 j ≠ 0 := by simp [gBad, hj]
    have heq := hext 0 (by omega) j (by omega) hne
    rw [heq]
    simp [gBad, hj]
  have h18 : g' 1 8 = 9 := by
    have hne : gBad 1 8 ≠ 0 := by simp [gBad]
    have heq := hext 1 (by omega) 8 (by omega) hne
    rw [heq]
    simp [gBad]
  have h08 := hrange 0 (by omega) 8 (by omega)
  have hnot : ∀ j, j < 8 → g' 0 8 ≠ j + 1 := by
    intro j hj heq
    have hvj := hval 0 8 0 j (by omega) (by omega) (by omega) (by omega)
      (by simp [Prod.ext_iff]; omega) (Or.inl rfl) (by omega)
    exact hvj (by rw [hrow j hj, heq])
  have h9 : g' 0 8 = 9 := by
    by_contra hne9
    have hex : ∃ j, j < 8 ∧ g' 0 8 = j + 1 := ⟨g' 0 8 - 1, by omega, by omega⟩
    obtain ⟨j, hj, hje⟩ := hex
    exact hnot j hj hje
  have hvc := hval 0 8 1 8 (by omega) (by omega) (by omega) (by omega)
    (by decide) (Or.inr (Or.inl rfl)) (by omega)
  rw [h9, h18] at hvc
  exact hvc rfl

/-- C4 witness: gBad is a valid, in-range grid with no completion, and
solve indeed returns false on it. -/
theorem c4_witness : (solve_grid gBad).1 = false :=
  (c4_solve_error_free gBad).2 (by decide) (by decide) gBad_noCompletion

/-- C1: for every run of fill_grid on the all-zero 9×9 grid that
returns true — any fuel, any shuffle counter, any shuffle oracle whose
outputs only list digits 1..9 (as random.shuffle of list(range(1,10))
guarantees) — the resulting grid has every cell in 1..9 and every row,
column and 3×3 block a permutation of {1..9}. -/
theorem c1_fill_solved (oracle : Nat → List Nat) (fuel n : Nat)
    (horacle : ∀ k v, v ∈ oracle k → 1 ≤ v ∧ v ≤ 9)
    (hsucc : (fillGrid oracle fuel n zeroGrid).1 = true) :
    solvedInvariant ((fillGrid oracle fuel n zeroGrid).2.1) := by
  have hfull := fillGrid_full oracle fuel n zeroGrid hsucc
  have hvr := fillGrid_sound oracle horacle fuel n zeroGrid validPartial_zero inRange_zero
  exact solvedInvariant_of _ hfull hvr.1 hvr.2

set_option maxRecDepth 10000 in
/-- C1 witness: with the oracle whose k-th shuffle puts the pattern
digit for cell k first, fill_grid succeeds on the all-zero grid and the
theorem yields the solved-grid invariant for its result. -/
theorem c1_witness : solvedInvariant ((fillGrid patternOracle 82 0 zeroGrid).2.1) :=
  c1_fill_solved patternOracle 82 0
    (by
      intro k v hv
      simp only [patternOracle, List.mem_singleton] at hv
      subst hv
      unfold patternVal
      omega)
    (by decide)

/-- C2: whenever the fill phase run by generate_sudoku (fuel 82,
counter 0, all-zero grid) returns true, solve on the puzzle returned by
generate_sudoku returns true, for every difficulty and every sequence of
randint draws: a removal is kept only when solve succeeds on the zeroed
grid, so solvability is an invariant of every accepted removal step. -/
theorem c2_generate_solvable (oracle : Nat → List Nat) (rand : Nat → Fin 9 × Fin 9)
    (difficulty : String) (hfill : (fillGrid oracle 82 0 zeroGrid).1 = true) :
    (solve_grid ((generate_sudoku oracle rand difficulty).1)).1 = true := by
  have hfull := fillGrid_full oracle 82 0 zeroGrid hfill
  have hsolve : (solve_grid ((fillGrid oracle 82 0 zeroGrid).2.1)).1 = true := by
    rw [solve_grid_of_full _ hfull]
  exact removeGo_solve rand (81 * 10) 0
    (if difficulty = "Easy" then 40 else if difficulty = "Medium" then 50 else 60)
    ((fillGrid oracle 82 0 zeroGrid).2.1) hsolve

set_option maxRecDepth 10000 in
/-- C2 witness: a concrete successful fill (pattern oracle) and a
concrete randint stream; solve succeeds on the generated puzzle. -/
theorem c2_witness :
    (solve_grid ((generate_sudoku patternOracle randZero "Easy").1)).1 = true :=
  c2_generate_solvable patternOracle randZero "Easy" (by decide)

/-- C5: on a fully filled input grid, remove_numbers leaves at most
target-count zero cells, and its result depends only on the randint
draws of attempts 0..809 (the loop performs at most 81·10 = 810
attempt iterations); reaching the budget still yields the grid
normally: remove_numbers is a total function. -/
theorem c5_remove_bounded (rand : Nat → Fin 9 × Fin 9) (g : Grid) (count : Nat)
    (hfull : fullGrid g) :
    countZeros (remove_numbers rand g count) ≤ count ∧
    ∀ rand', (∀ i, i < 81 * 10 → rand i = rand' i) →
      remove_numbers rand g count = remove_numbers rand' g count := by
  constructor
  · have hz := removeGo_zeros rand (81 * 10) 0 count g
    rw [countZeros_of_full g hfull] at hz
    simpa [remove_numbers] using hz
  · intro rand' hag
    exact removeGo_congr rand rand' hag (81 * 10) 0 count g (by omega)

/-- C5 witness: the bound instantiated on the full pattern grid with
target 3 and a constant randint stream. -/
theorem c5_witness : countZeros (remove_numbers randZero patternGrid 3) ≤ 3 :=
  (c5_remove_bounded randZero patternGrid 3 (by decide)).1

/-- C6: generate_sudoku's returned solution is exactly the grid the
fill phase produced (removal operates on the separate puzzle copy and
never mutates the solution), and Easy/Medium/Hard map to removal
targets 40/50/60 applied to that copy. -/
theorem c6_generate_frame (oracle : Nat → List Nat) (rand : Nat → Fin 9 × Fin 9) :
    (generate_sudoku oracle rand "Easy").2 = (fillGrid oracle 82 0 zeroGrid).2.1 ∧
    (generate_sudoku oracle rand "Medium").2 = (fillGrid oracle 82 0 zeroGrid).2.1 ∧
    (generate_sudoku oracle rand "Hard").2 = (fillGrid oracle 82 0 zeroGrid).2.1 ∧
    (generate_sudoku oracle rand "Easy").1
      = remove_numbers rand ((fillGrid oracle 82 0 zeroGrid).2.1) 40 ∧
    (generate_sudoku oracle rand "Medium").1
      = remove_numbers rand ((fillGrid oracle 82 0 zeroGrid).2.1) 50 ∧
    (generate_sudoku oracle rand "Hard").1
      = remove_numbers rand ((fillGrid oracle 82 0 zeroGrid).2.1) 60 := by
  refine ⟨rfl, rfl, rfl, ?_, ?_, ?_⟩ <;> simp [generate_sudoku]

/-- C9: every cell of the generated puzzle is either 0 or equal to the
corresponding cell of the stored solution: the removal loop only ever
writes 0 into a cell or restores that cell's backed-up value. -/
theorem c9_puzzle_cells (oracle : Nat → List Nat) (rand : Nat → Fin 9 × Fin 9)
    (difficulty : String) (r c : Nat) (_hr : r < 9) (_hc : c < 9) :
    (generate_sudoku oracle rand difficulty).1 r c = 0 ∨
    (generate_sudoku oracle rand difficulty).1 r c
      = (generate_sudoku oracle rand difficulty).2 r c :=
  removeGo_cells rand (81 * 10) 0
    (if difficulty = "Easy" then 40 else if difficulty = "Medium" then 50 else 60)
    ((fillGrid oracle 82 0 zeroGrid).2.1) r c

/-- C9 witness: the dichotomy instantiated at cell (0,0) of a concrete
generated pair. -/
theorem c9_witness :
    (generate_sudoku emptyOracle randZero "Hard").1 0 0 = 0 ∨
    (generate_sudoku emptyOracle randZero "Hard").1 0 0
      = (generate_sudoku emptyOracle randZero "Hard").2 0 0 :=
  c9_puzzle_cells emptyOracle randZero "Hard" 0 0 (by decide) (by decide)
